import Mathlib

/-!
Verification of the shape-packing core (rectangle decomposer, solution-callback
tracker, strategy selection, and result assembly) against its specification.

The decomposer mirrors `decompose_shape_to_rectangles` in `src/decomposition.py`:
a greedy scanline loop that repeatedly picks the remaining point with smallest
`(y, x)` key, grows a maximal-width run to the right, grows the run downward
while whole rows stay present, emits the rectangle and removes its cells.
-/

namespace Packing

/-- The set of unit cells covered by the rectangle `(x, y, w, h)`. -/
def rectCells (x y : Int) (w h : Nat) : Finset (Int × Int) :=
  (Finset.range w ×ˢ Finset.range h).image fun ij => (x + (ij.1 : Int), y + (ij.2 : Int))

theorem mem_rectCells {x y : Int} {w h : Nat} {a : Int × Int} :
    a ∈ rectCells x y w h ↔ ∃ i < w, ∃ j < h, a = (x + (i : Int), y + (j : Int)) := by
  constructor
  · intro ha
    rw [rectCells, Finset.mem_image] at ha
    obtain ⟨ij, hij, hae⟩ := ha
    rw [Finset.mem_product, Finset.mem_range, Finset.mem_range] at hij
    exact ⟨ij.1, hij.1, ij.2, hij.2, hae.symm⟩
  · rintro ⟨i, hi, j, hj, rfl⟩
    rw [rectCells, Finset.mem_image]
    refine ⟨(i, j), ?_, rfl⟩
    rw [Finset.mem_product, Finset.mem_range, Finset.mem_range]
    exact ⟨hi, hj⟩

theorem mem_rectCells_self (x y : Int) {w h : Nat} (hw : 0 < w) (hh : 0 < h) :
    (x, y) ∈ rectCells x y w h := by
  rw [mem_rectCells]
  exact ⟨0, hw, 0, hh, by simp⟩

theorem card_rectCells (x y : Int) (w h : Nat) : (rectCells x y w h).card = w * h := by
  rw [rectCells, Finset.card_image_of_injOn, Finset.card_product, Finset.card_range,
    Finset.card_range]
  intro a _ b _ hab
  have h1 : x + (a.1 : Int) = x + (b.1 : Int) := congrArg Prod.fst hab
  have h2 : y + (a.2 : Int) = y + (b.2 : Int) := congrArg Prod.snd hab
  have h3 : a.1 = b.1 := by omega
  have h4 : a.2 = b.2 := by omega
  exact Prod.ext h3 h4

/-- The width loop terminates: some cell strictly to the right of `(x, y)` is
missing from the finite set. -/
theorem growW_exists (s : Finset (Int × Int)) (x y : Int) :
    ∃ w : Nat, 0 < w ∧ (x + (w : Int), y) ∉ s := by
  by_contra hc
  push_neg at hc
  have hmem : ∀ n : Nat, (x + (n : Int) + 1, y) ∈ (s : Set (Int × Int)) := by
    intro n
    have h1 := hc (n + 1) (Nat.succ_pos n)
    have h2 : x + ((n + 1 : Nat) : Int) = x + (n : Int) + 1 := by push_cast; ring
    rw [h2] at h1
    exact h1
  have hinj : Function.Injective fun n : Nat => ((x + (n : Int) + 1, y) : Int × Int) := by
    intro a b hab
    have h1 : x + (a : Int) + 1 = x + (b : Int) + 1 := congrArg Prod.fst hab
    omega
  exact s.finite_toSet.not_infinite (Set.infinite_of_injective_forall_mem hinj hmem)

/-- Mirrors the inner `while (x + width, y) in point_set: width += 1` loop:
the final width, i.e. the least `w ≥ 1` with `(x + w, y)` absent. -/
def growW (s : Finset (Int × Int)) (x y : Int) : Nat :=
  Nat.find (growW_exists s x y)

theorem growW_pos (s : Finset (Int × Int)) (x y : Int) : 0 < growW s x y :=
  (Nat.find_spec (growW_exists s x y)).1

theorem growW_row (s : Finset (Int × Int)) (x y : Int) (hxy : (x, y) ∈ s) :
    ∀ i < growW s x y, (x + (i : Int), y) ∈ s := by
  intro i hi
  rcases Nat.eq_zero_or_pos i with h0 | hpos
  · subst h0
    simpa using hxy
  · have hmin := Nat.find_min (growW_exists s x y) hi
    rw [not_and] at hmin
    exact not_not.mp (hmin hpos)

/-- The height loop terminates: for some depth the row check fails. -/
theorem growH_exists (s : Finset (Int × Int)) (x y : Int) :
    ∃ hh : Nat, 0 < hh ∧ ∃ i ∈ Finset.range (growW s x y), (x + (i : Int), y + (hh : Int)) ∉ s := by
  by_contra hc
  push_neg at hc
  have hmem : ∀ n : Nat, (x, y + (n : Int) + 1) ∈ (s : Set (Int × Int)) := by
    intro n
    have h0 : (0 : Nat) ∈ Finset.range (growW s x y) := Finset.mem_range.mpr (growW_pos s x y)
    have h1 := hc (n + 1) (Nat.succ_pos n) 0 h0
    have h2 : x + ((0 : Nat) : Int) = x := by push_cast; ring
    have h3 : y + ((n + 1 : Nat) : Int) = y + (n : Int) + 1 := by push_cast; ring
    rw [h2, h3] at h1
    exact h1
  have hinj : Function.Injective fun n : Nat => ((x, y + (n : Int) + 1) : Int × Int) := by
    intro a b hab
    have h1 : y + (a : Int) + 1 = y + (b : Int) + 1 := congrArg Prod.snd hab
    omega
  exact s.finite_toSet.not_infinite (Set.infinite_of_injective_forall_mem hinj hmem)

/-- Mirrors the outer height loop: starting from `height = 1`, rows are added
while the entire next row `[x, x + width)` is present; the result is the least
`h ≥ 1` whose row fails the all-cells-present check. -/
def growH (s : Finset (Int × Int)) (x y : Int) : Nat :=
  Nat.find (growH_exists s x y)

theorem growH_pos (s : Finset (Int × Int)) (x y : Int) : 0 < growH s x y :=
  (Nat.find_spec (growH_exists s x y)).1

theorem growH_row (s : Finset (Int × Int)) (x y : Int) :
    ∀ j < growH s x y, 0 < j → ∀ i < growW s x y, (x + (i : Int), y + (j : Int)) ∈ s := by
  intro j hj hjpos i hi
  have hmin := Nat.find_min (growH_exists s x y) hj
  rw [not_and] at hmin
  have h1 := hmin hjpos
  push_neg at h1
  exact h1 i (Finset.mem_range.mpr hi)

/-- All cells of the grown rectangle lie inside the working set. -/
theorem rectCells_subset (s : Finset (Int × Int)) (x y : Int) (hxy : (x, y) ∈ s) :
    rectCells x y (growW s x y) (growH s x y) ⊆ s := by
  intro a ha
  rw [mem_rectCells] at ha
  obtain ⟨i, hi, j, hj, rfl⟩ := ha
  rcases Nat.eq_zero_or_pos j with h0 | hjpos
  · subst h0
    simpa using growW_row s x y hxy i hi
  · exact growH_row s x y j hj hjpos i hi

/-- Mirrors `min(point_set, key=lambda p: (p[1], p[0]))`: the point of the set
whose `(y, x)` key is lexicographically least. -/
def startPt (s : Finset (Int × Int)) (h : s.Nonempty) : Int × Int :=
  ((ofLex ((s.image fun p => toLex (p.2, p.1)).min' (h.image fun p => toLex (p.2, p.1)))).2,
   (ofLex ((s.image fun p => toLex (p.2, p.1)).min' (h.image fun p => toLex (p.2, p.1)))).1)

theorem startPt_mem (s : Finset (Int × Int)) (h : s.Nonempty) : startPt s h ∈ s := by
  have hm := Finset.min'_mem (s.image fun p => toLex (p.2, p.1)) (h.image fun p => toLex (p.2, p.1))
  rw [Finset.mem_image] at hm
  obtain ⟨p, hp, hpe⟩ := hm
  have he : startPt s h = p := by
    unfold startPt
    rw [← hpe]
    rfl
  rw [he]
  exact hp

/-- Mirrors the `while point_set:` loop of `decompose_shape_to_rectangles`:
pick the `(y, x)`-least start point, grow the rectangle, emit it, remove its
cells, recurse on the remainder. -/
def decomposeCore (s : Finset (Int × Int)) : List (Int × Int × Nat × Nat) :=
  if h : s.Nonempty then
    ((startPt s h).1, (startPt s h).2, growW s (startPt s h).1 (startPt s h).2,
      growH s (startPt s h).1 (startPt s h).2) ::
      decomposeCore (s \ rectCells (startPt s h).1 (startPt s h).2
        (growW s (startPt s h).1 (startPt s h).2) (growH s (startPt s h).1 (startPt s h).2))
  else []
termination_by s.card
decreasing_by
  refine Finset.card_lt_card (Finset.sdiff_ssubset ?_ ?_)
  · exact rectCells_subset s (startPt s h).1 (startPt s h).2 (startPt_mem s h)
  · exact ⟨((startPt s h).1, (startPt s h).2),
      mem_rectCells_self (startPt s h).1 (startPt s h).2
        (growW_pos s (startPt s h).1 (startPt s h).2)
        (growH_pos s (startPt s h).1 (startPt s h).2)⟩

theorem decomposeCore_of_nonempty (s : Finset (Int × Int)) (h : s.Nonempty) :
    decomposeCore s =
      ((startPt s h).1, (startPt s h).2, growW s (startPt s h).1 (startPt s h).2,
        growH s (startPt s h).1 (startPt s h).2) ::
        decomposeCore (s \ rectCells (startPt s h).1 (startPt s h).2
          (growW s (startPt s h).1 (startPt s h).2) (growH s (startPt s h).1 (startPt s h).2)) := by
  rw [decomposeCore]
  rw [dif_pos h]

theorem decomposeCore_of_empty (s : Finset (Int × Int)) (h : ¬s.Nonempty) :
    decomposeCore s = [] := by
  rw [decomposeCore]
  rw [dif_neg h]

/-- The cell set of one emitted rectangle. -/
def cellsOfRect (r : Int × Int × Nat × Nat) : Finset (Int × Int) :=
  rectCells r.1 r.2.1 r.2.2.1 r.2.2.2

/-- The union of the cell sets of a list of rectangles. -/
def cellsOfList (l : List (Int × Int × Nat × Nat)) : Finset (Int × Int) :=
  l.foldr (fun r acc => cellsOfRect r ∪ acc) ∅

theorem cellsOfList_cons (r : Int × Int × Nat × Nat) (l : List (Int × Int × Nat × Nat)) :
    cellsOfList (r :: l) = cellsOfRect r ∪ cellsOfList l := rfl

theorem cellsOfList_nil : cellsOfList [] = ∅ := rfl

theorem cellsOfRect_subset_cellsOfList {r : Int × Int × Nat × Nat}
    {l : List (Int × Int × Nat × Nat)} (hr : r ∈ l) : cellsOfRect r ⊆ cellsOfList l := by
  induction l with
  | nil => cases hr
  | cons a t ih =>
    rcases List.mem_cons.mp hr with h1 | h2
    · subst h1
      rw [cellsOfList_cons]
      exact Finset.subset_union_left
    · rw [cellsOfList_cons]
      exact (ih h2).trans Finset.subset_union_right

/-- The cells of the emitted rectangles cover the input set exactly. -/
theorem decomposeCore_union (s : Finset (Int × Int)) : cellsOfList (decomposeCore s) = s := by
  induction s using Finset.strongInduction with
  | _ s ih =>
    rcases s.eq_empty_or_nonempty with he | h
    · subst he
      rw [decomposeCore_of_empty _ (by simp), cellsOfList_nil]
    · rw [decomposeCore_of_nonempty s h, cellsOfList_cons]
      have hsub : rectCells (startPt s h).1 (startPt s h).2
          (growW s (startPt s h).1 (startPt s h).2) (growH s (startPt s h).1 (startPt s h).2) ⊆ s :=
        rectCells_subset s (startPt s h).1 (startPt s h).2 (startPt_mem s h)
      have hne : (rectCells (startPt s h).1 (startPt s h).2
          (growW s (startPt s h).1 (startPt s h).2)
          (growH s (startPt s h).1 (startPt s h).2)).Nonempty :=
        ⟨((startPt s h).1, (startPt s h).2),
          mem_rectCells_self (startPt s h).1 (startPt s h).2
            (growW_pos s (startPt s h).1 (startPt s h).2)
            (growH_pos s (startPt s h).1 (startPt s h).2)⟩
      rw [ih _ (Finset.sdiff_ssubset hsub hne)]
      exact Finset.union_sdiff_of_subset hsub

/-- No cell is covered by two distinct emitted rectangles. -/
theorem decomposeCore_pairwiseDisjoint (s : Finset (Int × Int)) :
    List.Pairwise (fun r r2 => Disjoint (cellsOfRect r) (cellsOfRect r2)) (decomposeCore s) := by
  induction s using Finset.strongInduction with
  | _ s ih =>
    rcases s.eq_empty_or_nonempty with he | h
    · subst he
      rw [decomposeCore_of_empty _ (by simp)]
      exact List.Pairwise.nil
    · rw [decomposeCore_of_nonempty s h, List.pairwise_cons]
      have hsub : rectCells (startPt s h).1 (startPt s h).2
          (growW s (startPt s h).1 (startPt s h).2) (growH s (startPt s h).1 (startPt s h).2) ⊆ s :=
        rectCells_subset s (startPt s h).1 (startPt s h).2 (startPt_mem s h)
      have hne : (rectCells (startPt s h).1 (startPt s h).2
          (growW s (startPt s h).1 (startPt s h).2)
          (growH s (startPt s h).1 (startPt s h).2)).Nonempty :=
        ⟨((startPt s h).1, (startPt s h).2),
          mem_rectCells_self (startPt s h).1 (startPt s h).2
            (growW_pos s (startPt s h).1 (startPt s h).2)
            (growH_pos s (startPt s h).1 (startPt s h).2)⟩
      refine ⟨?_, ih _ (Finset.sdiff_ssubset hsub hne)⟩
      intro r2 hr2
      have h2 : cellsOfRect r2 ⊆ s \ rectCells (startPt s h).1 (startPt s h).2
          (growW s (startPt s h).1 (startPt s h).2)
          (growH s (startPt s h).1 (startPt s h).2) := by
        have := cellsOfRect_subset_cellsOfList hr2
        rwa [decomposeCore_union] at this
      rw [Finset.disjoint_left]
      intro a ha hb
      have h3 := h2 hb
      rw [Finset.mem_sdiff] at h3
      exact h3.2 ha

theorem growW_singleton (p : Int × Int) : growW {p} p.1 p.2 = 1 := by
  rw [growW, Nat.find_eq_iff]
  constructor
  · refine ⟨Nat.one_pos, ?_⟩
    intro hmem
    rw [Finset.mem_singleton] at hmem
    have h1 : p.1 + ((1 : Nat) : Int) = p.1 := congrArg Prod.fst hmem
    omega
  · intro n hn
    rw [Nat.lt_one_iff] at hn
    subst hn
    simp

theorem growH_singleton (p : Int × Int) : growH {p} p.1 p.2 = 1 := by
  rw [growH, Nat.find_eq_iff]
  constructor
  · refine ⟨Nat.one_pos, 0, Finset.mem_range.mpr (growW_pos {p} p.1 p.2), ?_⟩
    intro hmem
    rw [Finset.mem_singleton] at hmem
    have h1 : p.2 + ((1 : Nat) : Int) = p.2 := congrArg Prod.snd hmem
    omega
  · intro n hn
    rw [Nat.lt_one_iff] at hn
    subst hn
    simp

theorem rectCells_one_one (x y : Int) : rectCells x y 1 1 = {(x, y)} := by
  ext a
  rw [mem_rectCells, Finset.mem_singleton]
  constructor
  · rintro ⟨i, hi, j, hj, rfl⟩
    rw [Nat.lt_one_iff] at hi hj
    subst hi
    subst hj
    simp
  · rintro rfl
    exact ⟨0, Nat.one_pos, 0, Nat.one_pos, by simp⟩

theorem decomposeCore_singleton (p : Int × Int) :
    decomposeCore ({p} : Finset (Int × Int)) = [(p.1, p.2, 1, 1)] := by
  have h : ({p} : Finset (Int × Int)).Nonempty := ⟨p, Finset.mem_singleton_self p⟩
  have hsp : startPt {p} h = p := Finset.mem_singleton.mp (startPt_mem {p} h)
  rw [decomposeCore_of_nonempty {p} h, hsp, growW_singleton, growH_singleton, rectCells_one_one]
  have hdiff : ({p} : Finset (Int × Int)) \ {(p.1, p.2)} = ∅ := by
    simp
  rw [hdiff, decomposeCore_of_empty ∅ (by simp)]

/-- Mirrors `decompose_shape_to_rectangles(points)` in `src/decomposition.py`:
empty input short-circuits to the empty list, otherwise the working set
`{tuple(p) for p in points}` is decomposed by the greedy scanline loop. -/
def decompose_shape_to_rectangles (points : List (Int × Int)) : List (Int × Int × Nat × Nat) :=
  if points = [] then [] else decomposeCore points.toFinset

/-- Claim C1: for every finite set of integer points, the rectangles returned by
`decompose_shape_to_rectangles` partition that set: re-expanding each rectangle
`(x, y, w, h)` into its `w * h` unit cells, the union of all cells equals the
input point set exactly and no two rectangles share a cell; the empty set
decomposes to the empty list and a single point `(px, py)` decomposes to the one
rectangle `(px, py, 1, 1)`. -/
theorem C1_decompose_partition (points : List (Int × Int)) :
    cellsOfList (decompose_shape_to_rectangles points) = points.toFinset
    ∧ List.Pairwise (fun r r2 => Disjoint (cellsOfRect r) (cellsOfRect r2))
        (decompose_shape_to_rectangles points)
    ∧ (∀ r ∈ decompose_shape_to_rectangles points, (cellsOfRect r).card = r.2.2.1 * r.2.2.2)
    ∧ decompose_shape_to_rectangles ([] : List (Int × Int)) = []
    ∧ ∀ p : Int × Int, decompose_shape_to_rectangles [p] = [(p.1, p.2, 1, 1)] := by
  refine ⟨?_, ?_, ?_, ?_, ?_⟩
  · by_cases hp : points = []
    · subst hp
      rw [decompose_shape_to_rectangles, if_pos rfl, cellsOfList_nil, List.toFinset_nil]
    · rw [decompose_shape_to_rectangles, if_neg hp]
      exact decomposeCore_union points.toFinset
  · by_cases hp : points = []
    · subst hp
      rw [decompose_shape_to_rectangles, if_pos rfl]
      exact List.Pairwise.nil
    · rw [decompose_shape_to_rectangles, if_neg hp]
      exact decomposeCore_pairwiseDisjoint points.toFinset
  · intro r _
    exact card_rectCells r.1 r.2.1 r.2.2.1 r.2.2.2
  · rw [decompose_shape_to_rectangles, if_pos rfl]
  · intro p
    have hne : ([p] : List (Int × Int)) ≠ [] := by simp
    rw [decompose_shape_to_rectangles, if_neg hne]
    have hfin : ([p] : List (Int × Int)).toFinset = {p} := by simp
    rw [hfin]
    exact decomposeCore_singleton p

/-! Embedding of `src/data_models.py` and `src/solver.py`. -/

structure Shape where
  name : String
  points : List (Int × Int)
  area : Int
  color : String
deriving DecidableEq

structure PlacedShape where
  name : String
  x : Int
  y : Int
  points : List (Int × Int)
  color : String
deriving DecidableEq

inductive PackingStatus where
  | OPTIMAL
  | FEASIBLE
  | INFEASIBLE
  | UNKNOWN
  | MODEL_INVALID
deriving DecidableEq

inductive CpStatus where
  | OPTIMAL
  | FEASIBLE
  | INFEASIBLE
  | UNKNOWN
  | MODEL_INVALID
deriving DecidableEq

structure PackingResult where
  board_size : Int × Int
  status : PackingStatus
  placed_shapes : List PlacedShape
  unplaced_shapes : List String
deriving DecidableEq

/-- Mirrors `max(p[...] for p in shape.points) if shape.points else 0` in
`_create_variables`. -/
def listMaxD (l : List Int) : Int :=
  match l with
  | [] => 0
  | a :: t => t.foldl max a

/-- The static per-instance data of one `shape_vars` entry, together with the
domain bounds of its placement variables `x ∈ [xLo, xHi]`, `y ∈ [yLo, yHi]`,
as created by `_create_variables` in `src/solver.py`. -/
structure ShapeVarData where
  name : String
  points : List (Int × Int)
  area : Int
  color : String
  xLo : Int
  xHi : Int
  yLo : Int
  yHi : Int
deriving DecidableEq

/-- Mirrors `_create_variables`: one variable record per requested instance,
with `x` bounded by `board_width - shape_width` and `y` by
`board_height - shape_height`. -/
def create_variables (shapes : List Shape) (board_width board_height : Int) :
    List ShapeVarData :=
  shapes.map fun s =>
    ⟨s.name, s.points, s.area, s.color,
      0, board_width - (listMaxD (s.points.map Prod.fst) + 1),
      0, board_height - (listMaxD (s.points.map Prod.snd) + 1)⟩

/-- One candidate assignment of a shape instance's variables, as read through
`self.Value(...)` inside the solution callback. -/
structure VarAssignment where
  is_used : Bool
  x : Int
  y : Int
deriving DecidableEq

/-- Mirrors `sum(s["area"] * self.Value(s["is_used"]) for s in self._shape_vars)`. -/
def filledArea (svars : List ShapeVarData) (cand : List VarAssignment) : Int :=
  ((svars.zip cand).map fun p => if p.2.is_used then p.1.area else 0).sum

/-- Mirrors `sum(self.Value(s["is_used"]) for s in self._shape_vars)`. -/
def placedCount (svars : List ShapeVarData) (cand : List VarAssignment) : Nat :=
  ((svars.zip cand).map fun p => if p.2.is_used then 1 else 0).sum

structure TrackerSolution where
  placed_shapes : List PlacedShape
  unplaced_shapes : List String
deriving DecidableEq

/-- Materializes `self.solution` from the candidate's variable assignment, as
in `on_solution_callback`: used instances become placed entries, the rest
contribute their names to `unplaced_shapes`. -/
def materializeSolution (svars : List ShapeVarData) (cand : List VarAssignment) :
    TrackerSolution :=
  ⟨((svars.zip cand).filter fun p => p.2.is_used).map
      fun p => ⟨p.1.name, p.2.x, p.2.y, p.1.points, p.1.color⟩,
    ((svars.zip cand).filter fun p => !p.2.is_used).map fun p => p.1.name⟩

/-- The mutable state of `SolutionCallback`: `_best_objective_value`
(initially `-1`) and `solution` (initially `None`). -/
structure CallbackState where
  best_objective_value : Int
  solution : Option TrackerSolution
deriving DecidableEq

def callbackInit : CallbackState := ⟨-1, none⟩

/-- The retention step of `on_solution_callback`: the candidate replaces the
retained solution exactly when its filled area strictly exceeds the best
objective value retained so far. -/
def on_solution_callback (svars : List ShapeVarData) (cand : List VarAssignment)
    (st : CallbackState) : CallbackState :=
  if filledArea svars cand > st.best_objective_value then
    ⟨filledArea svars cand, some (materializeSolution svars cand)⟩
  else st

/-- Folds the callback over the stream of candidate solutions the engine
offers during one search. -/
def runCallbacks (svars : List ShapeVarData) (cands : List (List VarAssignment)) :
    CallbackState :=
  cands.foldl (fun st c => on_solution_callback svars c st) callbackInit

/-- Mirrors `total_shape_area = sum(s.area for s in self.shapes_to_pack)`. -/
def total_shape_area (shapes : List Shape) : Int :=
  (shapes.map Shape.area).sum

/-- Mirrors `strategy = "P0" if total_shape_area <= board_area else "P1"`,
where `board_area = len(self.allowed_cells)`. -/
def chooseStrategy (shapes : List Shape) (allowed_cells : List (Int × Int)) : String :=
  if total_shape_area shapes ≤ (allowed_cells.length : Int) then "P0" else "P1"

/-- The early-stop decision of `on_solution_callback`: under strategy `"P0"`
stop when every requested instance is placed, under `"P1"` stop when the
filled area equals `board_area`. -/
def stopRequested (strategy : String) (total_shapes_count : Nat) (board_area : Nat)
    (svars : List ShapeVarData) (cand : List VarAssignment) : Bool :=
  if strategy = "P0" then placedCount svars cand == total_shapes_count
  else if strategy = "P1" then filledArea svars cand == (board_area : Int)
  else false

/-- The number of distinct admissible cells: the spec's "admissible-cell
count" read as the cardinality of the admissible-cell set. -/
def distinctCellCount (l : List (Int × Int)) : Nat :=
  l.dedup.length

/-- Key access into the `decomposed_shapes` memo (a Python dict keyed by shape
name): the value stored under the first matching key, if any. -/
def lookupRects (memo : List (String × List (Int × Int × Nat × Nat))) (nm : String) :
    Option (List (Int × Int × Nat × Nat)) :=
  match memo with
  | [] => none
  | (k, v) :: rest => if nm = k then some v else lookupRects rest nm

/-- One iteration of the `_prepare_data` loop: decompose and record the shape
unless its name is already memoized. -/
def prepareStep (memo : List (String × List (Int × Int × Nat × Nat))) (s : Shape) :
    List (String × List (Int × Int × Nat × Nat)) :=
  if (lookupRects memo s.name).isSome then memo
  else memo ++ [(s.name, decompose_shape_to_rectangles s.points)]

/-- Mirrors `_prepare_data`: a per-name memo of decompositions filled in
request order, keeping the first decomposition computed for each name;
`_add_constraints` later reads it back per instance via
`self.decomposed_shapes[s["name"]]`, i.e. `lookupRects` on the instance's
name. -/
def prepare_data (shapes : List Shape) : List (String × List (Int × Int × Nat × Nat)) :=
  shapes.foldl prepareStep []

/-- The `status_map` of `_process_solution`. -/
def statusToPacking (st : CpStatus) : PackingStatus :=
  match st with
  | .OPTIMAL => .OPTIMAL
  | .FEASIBLE => .FEASIBLE
  | .INFEASIBLE => .INFEASIBLE
  | .UNKNOWN => .UNKNOWN
  | .MODEL_INVALID => .MODEL_INVALID

/-- Mirrors `_process_solution`: placed/unplaced default to "everything
unplaced" and are overridden by the callback's retained solution when one
exists; the status is always the mapped terminal status. -/
def process_solution (shapes : List Shape) (board_width board_height : Int) (status : CpStatus)
    (callbackSolution : Option TrackerSolution) : PackingResult :=
  match callbackSolution with
  | some sol => ⟨(board_width, board_height), statusToPacking status,
      sol.placed_shapes, sol.unplaced_shapes⟩
  | none => ⟨(board_width, board_height), statusToPacking status, [], shapes.map Shape.name⟩

/-- The Python truthiness test `if not self.allowed_cells:` — true for `None`
and for the empty list. -/
def allowedCellsFalsy (allowed_cells : Option (List (Int × Int))) : Bool :=
  match allowed_cells with
  | none => true
  | some l => l.isEmpty

/-- The engine's contribution to one search, abstracted: its terminal status
and the stream of candidate assignments it offers to the callback. -/
structure EngineRun where
  status : CpStatus
  candidates : List (List VarAssignment)
deriving DecidableEq

/-- Mirrors `PackingSolver.solve`: short-circuit on a falsy admissible-cell
set, otherwise build the per-instance variables, drive the engine through the
callback and assemble the result from the terminal status and the retained
solution. -/
def solve (shapes : List Shape) (board_width board_height : Int)
    (allowed_cells : Option (List (Int × Int))) (run : EngineRun) : PackingResult :=
  if allowedCellsFalsy allowed_cells then
    ⟨(board_width, board_height), PackingStatus.INFEASIBLE, [], shapes.map Shape.name⟩
  else
    process_solution shapes board_width board_height run.status
      (runCallbacks (create_variables shapes board_width board_height) run.candidates).solution

/-- Claim C3: a solve invocation whose admissible-cell set is empty returns —
independently of anything the engine might have contributed — an Infeasible
result with empty `placed_shapes`, the given board dimensions as `board_size`,
and every requested instance's name in `unplaced_shapes`. -/
theorem C3_empty_cells_infeasible (shapes : List Shape) (board_width board_height : Int)
    (run : EngineRun) :
    solve shapes board_width board_height (some []) run =
      ⟨(board_width, board_height), PackingStatus.INFEASIBLE, [], shapes.map Shape.name⟩ := rfl

/-- Claim C10: when `allowed_cells` is `None` (the constructor default), solve
behaves exactly as in the empty-admissible-set case: an immediate Infeasible
result with empty `placed_shapes` and every requested instance's name in
`unplaced_shapes`, whatever the engine might have contributed. -/
theorem C10_none_cells_infeasible (shapes : List Shape) (board_width board_height : Int)
    (run : EngineRun) :
    solve shapes board_width board_height none run =
      ⟨(board_width, board_height), PackingStatus.INFEASIBLE, [], shapes.map Shape.name⟩ := rfl

/-- Claim C4 (amended): when a retained solution is present, `_process_solution`
populates placed/unplaced from it for every terminal status, and the result
status is the direct image of the engine status under the fixed status map —
Optimal exactly when the engine proved optimality and Feasible exactly when
the engine reported Feasible; Unknown, Infeasible and ModelInvalid propagate
as-is rather than becoming Feasible. -/
theorem C4_process_with_solution (shapes : List Shape) (board_width board_height : Int)
    (st : CpStatus) (sol : TrackerSolution) :
    (process_solution shapes board_width board_height st (some sol)).placed_shapes
        = sol.placed_shapes
    ∧ (process_solution shapes board_width board_height st (some sol)).unplaced_shapes
        = sol.unplaced_shapes
    ∧ (process_solution shapes board_width board_height st (some sol)).status = statusToPacking st
    ∧ ((process_solution shapes board_width board_height st (some sol)).status
        = PackingStatus.OPTIMAL ↔ st = CpStatus.OPTIMAL)
    ∧ ((process_solution shapes board_width board_height st (some sol)).status
        = PackingStatus.FEASIBLE ↔ st = CpStatus.FEASIBLE) := by
  refine ⟨rfl, rfl, rfl, ?_, ?_⟩ <;> cases st <;> simp [process_solution, statusToPacking]

/-- Claim C4 counterexample: with a retained solution present and terminal
status Unknown, `_process_solution` returns status Unknown, not Feasible as
the claim demands for every non-Optimal terminal status. -/
theorem C4_counterexample :
    (process_solution [⟨"a", [(0, 0)], 1, "c"⟩] 1 1 CpStatus.UNKNOWN
        (some ⟨[⟨"a", 0, 0, [(0, 0)], "c"⟩], []⟩)).status = PackingStatus.UNKNOWN
    ∧ (process_solution [⟨"a", [(0, 0)], 1, "c"⟩] 1 1 CpStatus.UNKNOWN
        (some ⟨[⟨"a", 0, 0, [(0, 0)], "c"⟩], []⟩)).status ≠ PackingStatus.FEASIBLE :=
  ⟨rfl, by decide⟩

/-- Claim C5 (amended): if the result status is Infeasible, Unknown or
ModelInvalid and the tracker retained no solution, then `placed_shapes` is
empty and `unplaced_shapes` lists every requested instance's name; with a
retained solution present the lists come from the tracker even under these
statuses. -/
theorem C5_no_solution_all_unplaced (shapes : List Shape) (board_width board_height : Int)
    (st : CpStatus)
    (hst : (process_solution shapes board_width board_height st none).status
          = PackingStatus.INFEASIBLE
        ∨ (process_solution shapes board_width board_height st none).status
          = PackingStatus.UNKNOWN
        ∨ (process_solution shapes board_width board_height st none).status
          = PackingStatus.MODEL_INVALID) :
    (process_solution shapes board_width board_height st none).placed_shapes = []
    ∧ (process_solution shapes board_width board_height st none).unplaced_shapes
        = shapes.map Shape.name :=
  ⟨rfl, rfl⟩

theorem C5_witness :
    ((process_solution [⟨"a", [(0, 0)], 1, "c"⟩] 2 2 CpStatus.INFEASIBLE none).status
        = PackingStatus.INFEASIBLE
      ∨ (process_solution [⟨"a", [(0, 0)], 1, "c"⟩] 2 2 CpStatus.INFEASIBLE none).status
        = PackingStatus.UNKNOWN
      ∨ (process_solution [⟨"a", [(0, 0)], 1, "c"⟩] 2 2 CpStatus.INFEASIBLE none).status
        = PackingStatus.MODEL_INVALID)
    ∧ (process_solution [⟨"a", [(0, 0)], 1, "c"⟩] 2 2 CpStatus.INFEASIBLE none).placed_shapes
        = []
    ∧ (process_solution [⟨"a", [(0, 0)], 1, "c"⟩] 2 2
        CpStatus.INFEASIBLE none).unplaced_shapes = ["a"] :=
  ⟨Or.inl rfl,
    (C5_no_solution_all_unplaced [⟨"a", [(0, 0)], 1, "c"⟩] 2 2 CpStatus.INFEASIBLE
      (Or.inl rfl)).1,
    (C5_no_solution_all_unplaced [⟨"a", [(0, 0)], 1, "c"⟩] 2 2 CpStatus.INFEASIBLE
      (Or.inl rfl)).2⟩

/-- Claim C5 counterexample: a result produced by `_process_solution` can have
status Unknown together with a non-empty `placed_shapes`, because a retained
tracker solution overrides the empty default whatever the terminal status. -/
theorem C5_counterexample :
    (process_solution [⟨"a", [(0, 0)], 1, "c"⟩] 1 1 CpStatus.UNKNOWN
        (some ⟨[⟨"a", 0, 0, [(0, 0)], "c"⟩], []⟩)).status = PackingStatus.UNKNOWN
    ∧ (process_solution [⟨"a", [(0, 0)], 1, "c"⟩] 1 1 CpStatus.UNKNOWN
        (some ⟨[⟨"a", 0, 0, [(0, 0)], "c"⟩], []⟩)).placed_shapes ≠ [] :=
  ⟨rfl, by decide⟩

/-- Claim C7 (amended): with the strategy fixed before the engine is invoked
as `"P0"` exactly when the total requested area is at most
`len(allowed_cells)` — the length of the admissible-cell list as supplied,
which equals the admissible-cell count whenever that list is duplicate-free —
the callback requests a stop exactly when, under `"P0"`, the candidate's
placed-instance count equals the total requested instance count, or, under
`"P1"`, its filled area equals `len(allowed_cells)`. -/
theorem C7_strategy_and_stop (shapes : List Shape) (board_width board_height : Int)
    (allowed_cells : List (Int × Int)) (cand : List VarAssignment) :
    (chooseStrategy shapes allowed_cells = "P0"
      ↔ total_shape_area shapes ≤ (allowed_cells.length : Int))
    ∧ (stopRequested (chooseStrategy shapes allowed_cells) shapes.length allowed_cells.length
          (create_variables shapes board_width board_height) cand = true
        ↔ (chooseStrategy shapes allowed_cells = "P0"
            ∧ placedCount (create_variables shapes board_width board_height) cand
              = shapes.length)
          ∨ (chooseStrategy shapes allowed_cells = "P1"
            ∧ filledArea (create_variables shapes board_width board_height) cand
              = (allowed_cells.length : Int))) := by
  by_cases hle : total_shape_area shapes ≤ (allowed_cells.length : Int)
  · have hs : chooseStrategy shapes allowed_cells = "P0" := by
      rw [chooseStrategy, if_pos hle]
    refine ⟨⟨fun _ => hle, fun _ => hs⟩, ?_⟩
    rw [hs, stopRequested, if_pos rfl]
    constructor
    · intro h
      exact Or.inl ⟨rfl, beq_iff_eq.mp h⟩
    · intro h
      rcases h with ⟨_, h2⟩ | ⟨hcontra, _⟩
      · exact beq_iff_eq.mpr h2
      · exact absurd hcontra (by decide)
  · have hs : chooseStrategy shapes allowed_cells = "P1" := by
      rw [chooseStrategy, if_neg hle]
    constructor
    · constructor
      · intro h0
        rw [hs] at h0
        exact absurd h0 (by decide)
      · intro h0
        exact absurd h0 hle
    · rw [hs, stopRequested, if_neg (by decide), if_pos rfl]
      constructor
      · intro h
        exact Or.inr ⟨rfl, beq_iff_eq.mp h⟩
      · intro h
        rcases h with ⟨hcontra, _⟩ | ⟨_, h2⟩
        · exact absurd hcontra (by decide)
        · exact beq_iff_eq.mpr h2

/-- Claim C7 counterexample: with duplicate admissible cells the code compares
the total requested area against the length of the `allowed_cells` list, not
against the admissible-cell count: one 2-cell shape with admissible list
`[(0,0), (0,0)]` (one distinct cell) is classified `"P0"` although the total
area 2 exceeds the admissible-cell count 1, where the claim requires `"P1"`. -/
theorem C7_counterexample :
    chooseStrategy [⟨"a", [(0, 0), (1, 0)], 2, "c"⟩] [(0, 0), (0, 0)] = "P0"
    ∧ ¬ (total_shape_area [⟨"a", [(0, 0), (1, 0)], 2, "c"⟩]
        ≤ (distinctCellCount [(0, 0), (0, 0)] : Int)) := by
  refine ⟨rfl, ?_⟩
  decide

theorem on_solution_callback_best_eq (svars : List ShapeVarData) (cand : List VarAssignment)
    (st : CallbackState) :
    (on_solution_callback svars cand st).best_objective_value
      = max st.best_objective_value (filledArea svars cand) := by
  rw [on_solution_callback]
  by_cases h : filledArea svars cand > st.best_objective_value
  · rw [if_pos h]
    exact (max_eq_right (le_of_lt h)).symm
  · rw [if_neg h]
    exact (max_eq_left (not_lt.mp h)).symm

theorem on_solution_callback_best_mono (svars : List ShapeVarData) (cand : List VarAssignment)
    (st : CallbackState) :
    st.best_objective_value ≤ (on_solution_callback svars cand st).best_objective_value := by
  rw [on_solution_callback_best_eq]
  exact le_max_left _ _

theorem runCallbacksFrom_best_mono (svars : List ShapeVarData)
    (cs : List (List VarAssignment)) (st : CallbackState) :
    st.best_objective_value
      ≤ (cs.foldl (fun st2 c => on_solution_callback svars c st2) st).best_objective_value := by
  induction cs generalizing st with
  | nil => exact le_refl _
  | cons c t ih =>
    rw [List.foldl_cons]
    exact (on_solution_callback_best_mono svars c st).trans (ih _)

theorem runCallbacksFrom_best_eq (svars : List ShapeVarData)
    (cs : List (List VarAssignment)) (st : CallbackState) :
    (cs.foldl (fun st2 c => on_solution_callback svars c st2) st).best_objective_value
      = cs.foldl (fun b c => max b (filledArea svars c)) st.best_objective_value := by
  induction cs generalizing st with
  | nil => rfl
  | cons c t ih =>
    rw [List.foldl_cons, List.foldl_cons, ih, on_solution_callback_best_eq]

theorem foldl_max_init_le (svars : List ShapeVarData) (cs : List (List VarAssignment))
    (b : Int) : b ≤ cs.foldl (fun b2 c2 => max b2 (filledArea svars c2)) b := by
  induction cs generalizing b with
  | nil => exact le_refl b
  | cons a t ih =>
    rw [List.foldl_cons]
    exact (le_max_left _ _).trans (ih _)

theorem foldl_max_le_of_mem (svars : List ShapeVarData) (cs : List (List VarAssignment))
    (b : Int) (c : List VarAssignment) (hc : c ∈ cs) :
    filledArea svars c ≤ cs.foldl (fun b2 c2 => max b2 (filledArea svars c2)) b := by
  induction cs generalizing b with
  | nil => cases hc
  | cons a t ih =>
    rw [List.foldl_cons]
    rcases List.mem_cons.mp hc with h1 | h2
    · subst h1
      exact (le_max_right _ _).trans (foldl_max_init_le svars t _)
    · exact ih _ h2

theorem filledArea_nonneg (svars : List ShapeVarData) (cand : List VarAssignment)
    (hpos : ∀ sv ∈ svars, 0 ≤ sv.area) : 0 ≤ filledArea svars cand := by
  rw [filledArea]
  refine List.sum_nonneg ?_
  intro v hv
  rw [List.mem_map] at hv
  obtain ⟨⟨sv, va⟩, hp, rfl⟩ := hv
  by_cases hu : va.is_used = true
  · rw [if_pos hu]
    exact hpos sv (List.of_mem_zip hp).1
  · rw [if_neg hu]

/-- The retained callback state is either untouched since initialization or
the materialization of some already-offered candidate, stored together with
that candidate's filled area. -/
def RetainedFrom (svars : List ShapeVarData) (pool : List (List VarAssignment))
    (st : CallbackState) : Prop :=
  (st.solution = none ∧ st.best_objective_value = -1)
  ∨ ∃ c ∈ pool, st.solution = some (materializeSolution svars c)
      ∧ filledArea svars c = st.best_objective_value

theorem RetainedFrom.mono {svars : List ShapeVarData}
    {pool pool2 : List (List VarAssignment)} {st : CallbackState}
    (hsub : ∀ c ∈ pool, c ∈ pool2) (h : RetainedFrom svars pool st) :
    RetainedFrom svars pool2 st := by
  rcases h with h1 | ⟨c, hc, h2, h3⟩
  · exact Or.inl h1
  · exact Or.inr ⟨c, hsub c hc, h2, h3⟩

theorem runCallbacksFrom_retained (svars : List ShapeVarData)
    (cs : List (List VarAssignment)) (pool : List (List VarAssignment)) (st : CallbackState)
    (h : RetainedFrom svars pool st) :
    RetainedFrom svars (pool ++ cs)
      (cs.foldl (fun st2 c => on_solution_callback svars c st2) st) := by
  induction cs generalizing pool st with
  | nil =>
    rw [List.append_nil, List.foldl_nil]
    exact h
  | cons c t ih =>
    rw [List.foldl_cons]
    have hstep : RetainedFrom svars (pool ++ [c]) (on_solution_callback svars c st) := by
      rw [on_solution_callback]
      by_cases hgt : filledArea svars c > st.best_objective_value
      · rw [if_pos hgt]
        exact Or.inr ⟨c, List.mem_append.mpr (Or.inr (List.mem_singleton_self c)), rfl, rfl⟩
      · rw [if_neg hgt]
        exact h.mono fun d hd => List.mem_append.mpr (Or.inl hd)
    have h2 := ih (pool ++ [c]) _ hstep
    rwa [List.append_assoc, List.singleton_append] at h2

theorem runCallbacks_retained (svars : List ShapeVarData) (cands : List (List VarAssignment)) :
    RetainedFrom svars cands (runCallbacks svars cands) := by
  have h := runCallbacksFrom_retained svars cands [] callbackInit (Or.inl ⟨rfl, rfl⟩)
  rwa [List.nil_append] at h

/-- Claim C2: within one search, the retained `_best_objective_value` is
non-decreasing across successive callback invocations; the retained solution
is replaced only when the candidate's filled area strictly exceeds the
retained value; and after a whole non-empty candidate sequence — instance
areas being non-negative, as they are for shapes whose area is their cell
count — the retained solution is the materialization of a candidate whose
filled area equals the maximum filled area over all candidates seen. -/
theorem C2_callback_tracker (svars : List ShapeVarData) (cands : List (List VarAssignment))
    (hpos : ∀ sv ∈ svars, 0 ≤ sv.area) (hne : cands ≠ []) :
    (∀ n : Nat, (runCallbacks svars (cands.take n)).best_objective_value
        ≤ (runCallbacks svars (cands.take (n + 1))).best_objective_value)
    ∧ (∀ (c : List VarAssignment) (st : CallbackState),
        ¬ filledArea svars c > st.best_objective_value
        → on_solution_callback svars c st = st)
    ∧ ∃ c ∈ cands, (runCallbacks svars cands).solution = some (materializeSolution svars c)
        ∧ filledArea svars c = (runCallbacks svars cands).best_objective_value
        ∧ ∀ c2 ∈ cands, filledArea svars c2 ≤ filledArea svars c := by
  refine ⟨?_, ?_, ?_⟩
  · intro n
    simp only [runCallbacks, List.take_succ, List.foldl_append]
    exact runCallbacksFrom_best_mono svars _ _
  · intro c st h
    rw [on_solution_callback, if_neg h]
  · have hc0 : ∃ c0, c0 ∈ cands := by
      rcases cands with _ | ⟨c0, t⟩
      · exact absurd rfl hne
      · exact ⟨c0, List.mem_cons_self c0 t⟩
    obtain ⟨c0, hc0⟩ := hc0
    have hbest_eq : (runCallbacks svars cands).best_objective_value
        = cands.foldl (fun b c2 => max b (filledArea svars c2)) (-1) :=
      runCallbacksFrom_best_eq svars cands callbackInit
    have h0 : 0 ≤ (runCallbacks svars cands).best_objective_value := by
      rw [hbest_eq]
      exact (filledArea_nonneg svars c0 hpos).trans (foldl_max_le_of_mem svars cands (-1) c0 hc0)
    rcases runCallbacks_retained svars cands with ⟨_, h2⟩ | ⟨c, hc, hsol, hbest⟩
    · rw [h2] at h0
      exact absurd h0 (by decide)
    · refine ⟨c, hc, hsol, hbest, ?_⟩
      intro c2 hc2
      rw [hbest, hbest_eq]
      exact foldl_max_le_of_mem svars cands (-1) c2 hc2

theorem C2_witness :
    (∀ sv ∈ ([⟨"a", [(0, 0)], 1, "c", 0, 0, 0, 0⟩] : List ShapeVarData), 0 ≤ sv.area)
    ∧ ([[⟨true, 0, 0⟩]] : List (List VarAssignment)) ≠ []
    ∧ ((∀ n : Nat,
        (runCallbacks [⟨"a", [(0, 0)], 1, "c", 0, 0, 0, 0⟩]
            (([[⟨true, 0, 0⟩]] : List (List VarAssignment)).take n)).best_objective_value
          ≤ (runCallbacks [⟨"a", [(0, 0)], 1, "c", 0, 0, 0, 0⟩]
            (([[⟨true, 0, 0⟩]] : List (List VarAssignment)).take (n + 1))).best_objective_value)
      ∧ (∀ (c : List VarAssignment) (st : CallbackState),
          ¬ filledArea [⟨"a", [(0, 0)], 1, "c", 0, 0, 0, 0⟩] c > st.best_objective_value
          → on_solution_callback [⟨"a", [(0, 0)], 1, "c", 0, 0, 0, 0⟩] c st = st)
      ∧ ∃ c ∈ ([[⟨true, 0, 0⟩]] : List (List VarAssignment)),
          (runCallbacks [⟨"a", [(0, 0)], 1, "c", 0, 0, 0, 0⟩] [[⟨true, 0, 0⟩]]).solution
            = some (materializeSolution [⟨"a", [(0, 0)], 1, "c", 0, 0, 0, 0⟩] c)
          ∧ filledArea [⟨"a", [(0, 0)], 1, "c", 0, 0, 0, 0⟩] c
            = (runCallbacks [⟨"a", [(0, 0)], 1, "c", 0, 0, 0, 0⟩]
                [[⟨true, 0, 0⟩]]).best_objective_value
          ∧ ∀ c2 ∈ ([[⟨true, 0, 0⟩]] : List (List VarAssignment)),
              filledArea [⟨"a", [(0, 0)], 1, "c", 0, 0, 0, 0⟩] c2
                ≤ filledArea [⟨"a", [(0, 0)], 1, "c", 0, 0, 0, 0⟩] c) :=
  ⟨by decide, by decide,
    C2_callback_tracker [⟨"a", [(0, 0)], 1, "c", 0, 0, 0, 0⟩] [[⟨true, 0, 0⟩]]
      (by decide) (by decide)⟩

theorem materialize_names_perm (svars : List ShapeVarData) (cand : List VarAssignment)
    (hlen : svars.length ≤ cand.length) :
    ((materializeSolution svars cand).placed_shapes.map PlacedShape.name
        ++ (materializeSolution svars cand).unplaced_shapes).Perm
      (svars.map ShapeVarData.name) := by
  have h1 : (materializeSolution svars cand).placed_shapes.map PlacedShape.name
      = ((svars.zip cand).filter fun p => p.2.is_used).map fun p => p.1.name := by
    simp only [materializeSolution, List.map_map]
    rfl
  have h2 : (materializeSolution svars cand).unplaced_shapes
      = ((svars.zip cand).filter fun p => !p.2.is_used).map fun p => p.1.name := rfl
  rw [h1, h2, ← List.map_append]
  have h3 := List.filter_append_perm (fun p : ShapeVarData × VarAssignment => p.2.is_used)
    (svars.zip cand)
  have h5 : ((svars.zip cand).map fun p : ShapeVarData × VarAssignment => p.1.name)
      = svars.map ShapeVarData.name := by
    have h6 := List.map_fst_zip svars cand hlen
    calc ((svars.zip cand).map fun p : ShapeVarData × VarAssignment => p.1.name)
        = ((svars.zip cand).map Prod.fst).map ShapeVarData.name := by
          rw [List.map_map]
          rfl
      _ = svars.map ShapeVarData.name := by rw [h6]
  have h7 : (((svars.zip cand).map fun p : ShapeVarData × VarAssignment => p.1.name)).Perm
      (svars.map ShapeVarData.name) := by
    rw [h5]
  exact (h3.map fun p : ShapeVarData × VarAssignment => p.1.name).trans h7

theorem solve_engine_path (shapes : List Shape) (board_width board_height : Int)
    (allowed_cells : Option (List (Int × Int))) (run : EngineRun)
    (hf : allowedCellsFalsy allowed_cells = false) :
    solve shapes board_width board_height allowed_cells run
      = process_solution shapes board_width board_height run.status
          (runCallbacks (create_variables shapes board_width board_height)
            run.candidates).solution := by
  simp [solve, hf]

/-- Claim C6: for every solve invocation with `n` requested instances and
every terminal status, the result satisfies
`placed_shapes.length + unplaced_shapes.length = n`, and the placed names
followed by the unplaced names are a permutation of the requested names —
every requested instance appears, counted with multiplicity by
name-occurrence, in exactly one of the two lists. -/
theorem C6_partition_of_instances (shapes : List Shape) (board_width board_height : Int)
    (allowed_cells : Option (List (Int × Int))) (run : EngineRun)
    (hlen : ∀ c ∈ run.candidates, c.length = shapes.length) :
    (solve shapes board_width board_height allowed_cells run).placed_shapes.length
        + (solve shapes board_width board_height allowed_cells run).unplaced_shapes.length
        = shapes.length
    ∧ ((solve shapes board_width board_height allowed_cells run).placed_shapes.map
          PlacedShape.name
        ++ (solve shapes board_width board_height allowed_cells run).unplaced_shapes).Perm
      (shapes.map Shape.name) := by
  have hperm : ((solve shapes board_width board_height allowed_cells run).placed_shapes.map
        PlacedShape.name
      ++ (solve shapes board_width board_height allowed_cells run).unplaced_shapes).Perm
      (shapes.map Shape.name) := by
    by_cases hf : allowedCellsFalsy allowed_cells = true
    · have hsolve : solve shapes board_width board_height allowed_cells run
          = ⟨(board_width, board_height), PackingStatus.INFEASIBLE, [],
              shapes.map Shape.name⟩ := by
        simp [solve, hf]
      rw [hsolve]
      simp
    · rw [Bool.not_eq_true] at hf
      rw [solve_engine_path shapes board_width board_height allowed_cells run hf]
      rcases runCallbacks_retained (create_variables shapes board_width board_height)
          run.candidates with ⟨hnone, _⟩ | ⟨c, hc, hsol, _⟩
      · rw [hnone]
        simp [process_solution]
      · rw [hsol]
        have hml : (create_variables shapes board_width board_height).length ≤ c.length := by
          have h8 : (create_variables shapes board_width board_height).length
              = shapes.length := List.length_map shapes _
          rw [h8, hlen c hc]
        have hp := materialize_names_perm (create_variables shapes board_width board_height)
          c hml
        have hnames : (create_variables shapes board_width board_height).map ShapeVarData.name
            = shapes.map Shape.name := by
          simp only [create_variables, List.map_map]
          rfl
        rw [hnames] at hp
        exact hp
  refine ⟨?_, hperm⟩
  have hl := hperm.length_eq
  rw [List.length_append, List.length_map, List.length_map] at hl
  exact hl

theorem C6_witness :
    (∀ c ∈ ([[⟨true, 0, 0⟩]] : List (List VarAssignment)),
        c.length = ([⟨"a", [(0, 0)], 1, "c"⟩] : List Shape).length)
    ∧ (solve [⟨"a", [(0, 0)], 1, "c"⟩] 3 3 (some [(0, 0)])
          ⟨CpStatus.FEASIBLE, [[⟨true, 0, 0⟩]]⟩).placed_shapes.length
        + (solve [⟨"a", [(0, 0)], 1, "c"⟩] 3 3 (some [(0, 0)])
          ⟨CpStatus.FEASIBLE, [[⟨true, 0, 0⟩]]⟩).unplaced_shapes.length
        = ([⟨"a", [(0, 0)], 1, "c"⟩] : List Shape).length
    ∧ ((solve [⟨"a", [(0, 0)], 1, "c"⟩] 3 3 (some [(0, 0)])
          ⟨CpStatus.FEASIBLE, [[⟨true, 0, 0⟩]]⟩).placed_shapes.map PlacedShape.name
        ++ (solve [⟨"a", [(0, 0)], 1, "c"⟩] 3 3 (some [(0, 0)])
          ⟨CpStatus.FEASIBLE, [[⟨true, 0, 0⟩]]⟩).unplaced_shapes).Perm
      (([⟨"a", [(0, 0)], 1, "c"⟩] : List Shape).map Shape.name) :=
  ⟨by decide,
    (C6_partition_of_instances [⟨"a", [(0, 0)], 1, "c"⟩] 3 3 (some [(0, 0)])
      ⟨CpStatus.FEASIBLE, [[⟨true, 0, 0⟩]]⟩ (by decide)).1,
    (C6_partition_of_instances [⟨"a", [(0, 0)], 1, "c"⟩] 3 3 (some [(0, 0)])
      ⟨CpStatus.FEASIBLE, [[⟨true, 0, 0⟩]]⟩ (by decide)).2⟩

theorem lookupRects_append_of_some (memo l2 : List (String × List (Int × Int × Nat × Nat)))
    (nm : String) (r : List (Int × Int × Nat × Nat)) (h : lookupRects memo nm = some r) :
    lookupRects (memo ++ l2) nm = some r := by
  induction memo with
  | nil => exact absurd h (by simp [lookupRects])
  | cons a t ih =>
    rcases a with ⟨k, v⟩
    rw [List.cons_append]
    simp only [lookupRects] at h ⊢
    by_cases hk : nm = k
    · rw [if_pos hk] at h ⊢
      exact h
    · rw [if_neg hk] at h ⊢
      exact ih h

theorem lookupRects_append_of_none (memo l2 : List (String × List (Int × Int × Nat × Nat)))
    (nm : String) (h : lookupRects memo nm = none) :
    lookupRects (memo ++ l2) nm = lookupRects l2 nm := by
  induction memo with
  | nil => rfl
  | cons a t ih =>
    rcases a with ⟨k, v⟩
    rw [List.cons_append]
    simp only [lookupRects] at h ⊢
    by_cases hk : nm = k
    · rw [if_pos hk] at h
      exact absurd h (by simp)
    · rw [if_neg hk] at h ⊢
      exact ih h

theorem foldl_prepareStep_lookup (shapes : List Shape)
    (memo : List (String × List (Int × Int × Nat × Nat))) (nm : String) :
    lookupRects (shapes.foldl prepareStep memo) nm
      = match lookupRects memo nm with
        | some r => some r
        | none => (shapes.find? fun u => u.name == nm).map fun t =>
            decompose_shape_to_rectangles t.points := by
  induction shapes generalizing memo with
  | nil =>
    rw [List.foldl_nil]
    cases hm : lookupRects memo nm with
    | none => rfl
    | some r => rfl
  | cons s t ih =>
    rw [List.foldl_cons]
    by_cases hs : (lookupRects memo s.name).isSome = true
    · have hstep : prepareStep memo s = memo := by
        rw [prepareStep, if_pos hs]
      rw [hstep, ih memo]
      cases hm : lookupRects memo nm with
      | some r => rfl
      | none =>
        rw [List.find?_cons]
        by_cases hn : (s.name == nm) = true
        · have h1 : s.name = nm := beq_iff_eq.mp hn
          rw [h1, hm] at hs
          exact absurd hs (by simp)
        · have h2 : (s.name == nm) = false := by
            rw [Bool.not_eq_true] at hn
            exact hn
          rw [h2]
    · have hnone : lookupRects memo s.name = none := by
        cases hq : lookupRects memo s.name with
        | none => rfl
        | some r =>
          rw [hq] at hs
          exact absurd rfl hs
      have hstep : prepareStep memo s
          = memo ++ [(s.name, decompose_shape_to_rectangles s.points)] := by
        rw [prepareStep, if_neg hs]
      rw [hstep, ih (memo ++ [(s.name, decompose_shape_to_rectangles s.points)])]
      cases hm : lookupRects memo nm with
      | some r =>
        rw [lookupRects_append_of_some memo _ nm r hm]
      | none =>
        rw [lookupRects_append_of_none memo _ nm hm]
        by_cases hn : nm = s.name
        · have hl : lookupRects [(s.name, decompose_shape_to_rectangles s.points)] nm
              = some (decompose_shape_to_rectangles s.points) := by
            simp only [lookupRects]
            rw [if_pos hn]
          rw [hl, List.find?_cons]
          have hb : (s.name == nm) = true := beq_iff_eq.mpr hn.symm
          rw [hb]
          rfl
        · have hl : lookupRects [(s.name, decompose_shape_to_rectangles s.points)] nm
              = none := by
            simp only [lookupRects]
            rw [if_neg hn]
          rw [hl, List.find?_cons]
          have hb : (s.name == nm) = false := beq_eq_false_iff_ne.mpr fun h2 => hn h2.symm
          rw [hb]

theorem prepare_data_first_name (shapes : List Shape) (nm : String) :
    lookupRects (prepare_data shapes) nm
      = (shapes.find? fun u => u.name == nm).map fun t =>
          decompose_shape_to_rectangles t.points :=
  foldl_prepareStep_lookup shapes [] nm

/-- Claim C8 (amended): the rectangle list the model builder uses for an
instance is the memo entry under the instance's name, which equals
`decompose_shape_to_rectangles` applied to the points of the FIRST requested
instance bearing that name; hence it equals the decomposition of the
instance's own points exactly when its points coincide with that first
occurrence's points — in particular always for the first instance of each
name, and whenever same-named instances share one points list. -/
theorem C8_memoized_decomposition (shapes : List Shape) (s t2 : Shape)
    (hmem : s ∈ shapes) (hfirst : (shapes.find? fun u => u.name == s.name) = some t2) :
    lookupRects (prepare_data shapes) s.name
        = some (decompose_shape_to_rectangles t2.points)
    ∧ (t2.points = s.points →
        lookupRects (prepare_data shapes) s.name
          = some (decompose_shape_to_rectangles s.points)) := by
  have h := prepare_data_first_name shapes s.name
  rw [hfirst] at h
  refine ⟨h, fun hp => ?_⟩
  rw [← hp]
  exact h

theorem C8_witness :
    (⟨"a", [(0, 0)], 1, "c"⟩ : Shape) ∈ ([⟨"a", [(0, 0)], 1, "c"⟩] : List Shape)
    ∧ (([⟨"a", [(0, 0)], 1, "c"⟩] : List Shape).find? fun u =>
        u.name == (⟨"a", [(0, 0)], 1, "c"⟩ : Shape).name) = some ⟨"a", [(0, 0)], 1, "c"⟩
    ∧ (lookupRects (prepare_data [⟨"a", [(0, 0)], 1, "c"⟩]) "a"
        = some (decompose_shape_to_rectangles [(0, 0)])
      ∧ ((⟨"a", [(0, 0)], 1, "c"⟩ : Shape).points = [(0, 0)] →
          lookupRects (prepare_data [⟨"a", [(0, 0)], 1, "c"⟩]) "a"
            = some (decompose_shape_to_rectangles [(0, 0)]))) :=
  ⟨by decide, by decide,
    C8_memoized_decomposition [⟨"a", [(0, 0)], 1, "c"⟩] ⟨"a", [(0, 0)], 1, "c"⟩
      ⟨"a", [(0, 0)], 1, "c"⟩ (by decide) (by decide)⟩

theorem startPt_eq (s : Finset (Int × Int)) (h : s.Nonempty) (p : Int × Int)
    (hp : p ∈ s) (hmin : ∀ q ∈ s, toLex (p.2, p.1) ≤ toLex (q.2, q.1)) :
    startPt s h = p := by
  have hle := Finset.min'_le (s.image fun q => toLex (q.2, q.1)) (toLex (p.2, p.1))
    (Finset.mem_image_of_mem _ hp)
  have hge : toLex (p.2, p.1)
      ≤ (s.image fun q => toLex (q.2, q.1)).min' (h.image fun q => toLex (q.2, q.1)) := by
    apply Finset.le_min'
    intro y hy
    rw [Finset.mem_image] at hy
    obtain ⟨q, hq, rfl⟩ := hy
    exact hmin q hq
  have heq : (s.image fun q => toLex (q.2, q.1)).min' (h.image fun q => toLex (q.2, q.1))
      = toLex (p.2, p.1) := le_antisymm (by exact hle) hge
  unfold startPt
  rw [heq]
  rfl

theorem decomposeCore_pair :
    decomposeCore ({((0 : Int), (0 : Int)), ((1 : Int), (0 : Int))} : Finset (Int × Int))
      = [(0, 0, 2, 1)] := by
  have h : ({((0 : Int), (0 : Int)), ((1 : Int), (0 : Int))} : Finset (Int × Int)).Nonempty :=
    ⟨(0, 0), by decide⟩
  have hsp : startPt {((0 : Int), (0 : Int)), ((1 : Int), (0 : Int))} h = (0, 0) := by
    apply startPt_eq
    · decide
    · intro q hq
      have hq2 : q = ((0 : Int), (0 : Int)) ∨ q = ((1 : Int), (0 : Int)) := by
        rcases Finset.mem_insert.mp hq with h1 | h2
        · exact Or.inl h1
        · exact Or.inr (Finset.mem_singleton.mp h2)
      rcases hq2 with rfl | rfl
      · exact le_refl _
      · rw [Prod.Lex.le_iff]
        exact Or.inr ⟨rfl, by omega⟩
  have has1 : (startPt {((0 : Int), (0 : Int)), ((1 : Int), (0 : Int))} h).1 = 0 := by
    rw [hsp]
  have has2 : (startPt {((0 : Int), (0 : Int)), ((1 : Int), (0 : Int))} h).2 = 0 := by
    rw [hsp]
  have hw : growW {((0 : Int), (0 : Int)), ((1 : Int), (0 : Int))} 0 0 = 2 := by
    rw [growW, Nat.find_eq_iff]
    constructor
    · exact ⟨by omega, by decide⟩
    · intro n hn
      have h2 : n = 0 ∨ n = 1 := by omega
      rcases h2 with rfl | rfl
      · decide
      · decide
  have hh : growH {((0 : Int), (0 : Int)), ((1 : Int), (0 : Int))} 0 0 = 1 := by
    rw [growH, Nat.find_eq_iff]
    constructor
    · refine ⟨Nat.one_pos, 0, ?_, by decide⟩
      rw [Finset.mem_range, hw]
      omega
    · intro n hn
      rw [Nat.lt_one_iff] at hn
      subst hn
      simp
  rw [decomposeCore_of_nonempty _ h, has1, has2, hw, hh]
  have hdiff : ({((0 : Int), (0 : Int)), ((1 : Int), (0 : Int))} : Finset (Int × Int))
      \ rectCells 0 0 2 1 = ∅ := by decide
  rw [hdiff, decomposeCore_of_empty ∅ (by simp)]

theorem decompose_single_eval :
    decompose_shape_to_rectangles [((0 : Int), (0 : Int))] = [(0, 0, 1, 1)] := by
  rw [decompose_shape_to_rectangles, if_neg (by simp)]
  have hfin : ([((0 : Int), (0 : Int))] : List (Int × Int)).toFinset
      = {((0 : Int), (0 : Int))} := by decide
  rw [hfin]
  exact decomposeCore_singleton ((0 : Int), (0 : Int))

theorem decompose_pair_eval :
    decompose_shape_to_rectangles [((0 : Int), (0 : Int)), ((1 : Int), (0 : Int))]
      = [(0, 0, 2, 1)] := by
  rw [decompose_shape_to_rectangles, if_neg (by simp)]
  have hfin : ([((0 : Int), (0 : Int)), ((1 : Int), (0 : Int))] : List (Int × Int)).toFinset
      = {((0 : Int), (0 : Int)), ((1 : Int), (0 : Int))} := by decide
  rw [hfin]
  exact decomposeCore_pair

/-- Claim C8 counterexample: two requested instances share the name `"a"` but
have different points; `_prepare_data` memoizes the first decomposition, so
the rectangle list the model builder uses for the second instance (a 1-by-1
rectangle) is not the decomposition of that instance's own two-cell points
set (a 2-by-1 rectangle). -/
theorem C8_counterexample :
    (⟨"a", [((0 : Int), (0 : Int)), ((1 : Int), (0 : Int))], 2, "c"⟩ : Shape)
        ∈ ([⟨"a", [((0 : Int), (0 : Int))], 1, "c"⟩,
            ⟨"a", [((0 : Int), (0 : Int)), ((1 : Int), (0 : Int))], 2, "c"⟩] : List Shape)
    ∧ lookupRects (prepare_data [⟨"a", [((0 : Int), (0 : Int))], 1, "c"⟩,
          ⟨"a", [((0 : Int), (0 : Int)), ((1 : Int), (0 : Int))], 2, "c"⟩]) "a"
        ≠ some (decompose_shape_to_rectangles
            [((0 : Int), (0 : Int)), ((1 : Int), (0 : Int))]) := by
  refine ⟨by decide, ?_⟩
  have h1 := prepare_data_first_name
    [⟨"a", [((0 : Int), (0 : Int))], 1, "c"⟩,
      ⟨"a", [((0 : Int), (0 : Int)), ((1 : Int), (0 : Int))], 2, "c"⟩] "a"
  have h2 : (([⟨"a", [((0 : Int), (0 : Int))], 1, "c"⟩,
      ⟨"a", [((0 : Int), (0 : Int)), ((1 : Int), (0 : Int))], 2, "c"⟩] : List Shape).find?
        fun u => u.name == "a") = some ⟨"a", [((0 : Int), (0 : Int))], 1, "c"⟩ := by decide
  rw [h2] at h1
  have h3 : lookupRects (prepare_data [⟨"a", [((0 : Int), (0 : Int))], 1, "c"⟩,
        ⟨"a", [((0 : Int), (0 : Int)), ((1 : Int), (0 : Int))], 2, "c"⟩]) "a"
      = some (decompose_shape_to_rectangles [((0 : Int), (0 : Int))]) := h1
  rw [h3, decompose_single_eval, decompose_pair_eval]
  decide

/-- Claim C9 counterexample: invalid input is not rejected. A 0×0 board with a
shape whose points are empty and whose supplied area (5) is inconsistent with
its cell count (0) flows straight through model construction — one variable
record is built, with the empty-points shape coerced to a 1×1 bounding box
(upper bounds `0 - 1 = -1`) — and solve returns an ordinary engine-derived
result instead of any caller-visible validation failure. -/
theorem C9_counterexample :
    create_variables [⟨"a", [], 5, "c"⟩] 0 0 = [⟨"a", [], 5, "c", 0, -1, 0, -1⟩]
    ∧ solve [⟨"a", [], 5, "c"⟩] 0 0 (some [(0, 0)]) ⟨CpStatus.UNKNOWN, []⟩
      = ⟨(0, 0), PackingStatus.UNKNOWN, [], ["a"]⟩ :=
  ⟨by decide, by decide⟩

/-- Claim C9 (amended): there is no input validation: on every invocation with
invalid input — board dimensions ≤ 0, a shape with empty points, or a shape
whose supplied area differs from its cell count — and a non-falsy
admissible-cell set, solve does not fail: it still builds one
placement-variable record per requested instance (an empty-points shape
getting bounding box 1×1) and returns the engine-derived result; the code
silently proceeds to model construction instead of rejecting. -/
theorem C9_no_validation (shapes : List Shape) (board_width board_height : Int)
    (allowed_cells : Option (List (Int × Int))) (run : EngineRun)
    (hbad : board_width ≤ 0 ∨ board_height ≤ 0
      ∨ ∃ s ∈ shapes, s.points = [] ∨ s.area ≠ (s.points.length : Int))
    (hf : allowedCellsFalsy allowed_cells = false) :
    solve shapes board_width board_height allowed_cells run
      = process_solution shapes board_width board_height run.status
          (runCallbacks (create_variables shapes board_width board_height)
            run.candidates).solution
    ∧ (create_variables shapes board_width board_height).length = shapes.length :=
  ⟨solve_engine_path shapes board_width board_height allowed_cells run hf,
    List.length_map shapes _⟩

theorem C9_witness :
    ((0 : Int) ≤ 0 ∨ (0 : Int) ≤ 0
      ∨ ∃ s ∈ ([⟨"a", [], 5, "c"⟩] : List Shape), s.points = []
          ∨ s.area ≠ (s.points.length : Int))
    ∧ allowedCellsFalsy (some [(0, 0)]) = false
    ∧ (solve [⟨"a", [], 5, "c"⟩] 0 0 (some [(0, 0)]) ⟨CpStatus.UNKNOWN, []⟩
        = process_solution [⟨"a", [], 5, "c"⟩] 0 0 CpStatus.UNKNOWN
            (runCallbacks (create_variables [⟨"a", [], 5, "c"⟩] 0 0) []).solution
      ∧ (create_variables [⟨"a", [], 5, "c"⟩] 0 0).length
        = ([⟨"a", [], 5, "c"⟩] : List Shape).length) :=
  ⟨by decide, rfl,
    C9_no_validation [⟨"a", [], 5, "c"⟩] 0 0 (some [(0, 0)]) ⟨CpStatus.UNKNOWN, []⟩
      (by decide) rfl⟩

end Packing
